import Mathlib

/-!
# leaflet-draw-shapes — verification of the polygon engine

Shallow embedding of the core of the `leaflet-draw-shapes` repository:
the merge engine (`src/helpers/merge.js`), the `DrawLayer` class
(`src/index.ts`), its option handling, and the mode-gated interactive
drawing session.

Geometry is modelled at the region level: the enclosed area of a polygon
ring is abstracted as a finite set of integer cells (`Finset (Int × Int)`).
The geometric primitives that live outside the repository (the
`@turf/intersect` overlap test and the `clipper-lib` boolean union) and the
helper modules absent from the source tree (`helpers/polygon.js`,
`helpers/flags.js`, `helpers/simplify.js`) are modelled from the spec; each
such definition carries a doc comment saying so.  Everything else is a
direct translation of the JavaScript/TypeScript source.
-/

set_option autoImplicit false

namespace LeafletDrawShapes

/-- A point of the single consistent coordinate space (spec §3). -/
abbrev Pt : Type := Int × Int

/-- The enclosed area of a polygon ring, abstracted as a finite set of
cells of the coordinate space. -/
abbrev Region : Type := Finset Pt

/-- Modelled from the spec: the Intersection Analyzer
(`@turf/intersect`, an external dependency of `merge.js`) reports true iff
the two rings' enclosed areas share interior, i.e. the two regions have a
common cell (spec §4.3). -/
def intersectsB (a b : Region) : Bool :=
  decide (a ∩ b).Nonempty

/-- A JavaScript numeric option value: a finite rational or `Infinity`
(the default of `maximumPolygons` in `src/index.ts`). -/
inductive NumVal : Type
  | fin (q : ℚ)
  | inf
deriving DecidableEq, Repr

/-- Modelled from the spec: the mode bitmask flags of `helpers/flags.js`
(absent from the source tree) — NONE = 0, independent bits for
CREATE/EDIT/DELETE/APPEND, EDIT_APPEND = EDIT ||| APPEND, ALL = union of
all bits (spec §3, §4.5). -/
def NONE : Nat := 0

/-- CREATE flag bit; see `NONE` for the modelling note. -/
def CREATE : Nat := 1

/-- EDIT flag bit; see `NONE` for the modelling note. -/
def EDIT : Nat := 2

/-- DELETE flag bit; see `NONE` for the modelling note. -/
def DELETE : Nat := 4

/-- APPEND flag bit; see `NONE` for the modelling note. -/
def APPEND : Nat := 8

/-- EDIT_APPEND = EDIT ||| APPEND; see `NONE` for the modelling note. -/
def EDIT_APPEND : Nat := EDIT ||| APPEND

/-- ALL = union of all four bits; see `NONE` for the modelling note. -/
def ALL : Nat := CREATE ||| EDIT ||| DELETE ||| APPEND

/-- The option record of `DrawLayer` (interface `DrawLayerOptions` of
`src/index.ts`).  Numeric fields are exact rationals. -/
structure DrawLayerOptions : Type where
  mode : Nat
  smoothFactor : ℚ
  elbowDistance : ℚ
  simplifyFactor : ℚ
  mergePolygons : Bool
  concavePolygon : Bool
  maximumPolygons : NumVal
  notifyAfterEditExit : Bool
  leaveModeAfterCreate : Bool
  strokeWidth : ℚ
deriving DecidableEq, Repr

/-- `defaultOptions` of `src/index.ts` (0.3 = 3/10, 1.1 = 11/10,
`maximumPolygons : Infinity`). -/
def defaultOptions : DrawLayerOptions where
  mode := ALL
  smoothFactor := 3 / 10
  elbowDistance := 10
  simplifyFactor := 11 / 10
  mergePolygons := true
  concavePolygon := true
  maximumPolygons := NumVal.inf
  notifyAfterEditExit := false
  leaveModeAfterCreate := false
  strokeWidth := 2

/-- A `Partial<DrawLayerOptions>` object: each field either absent
(`none`) or present. -/
structure PartialDrawLayerOptions : Type where
  mode : Option Nat := none
  smoothFactor : Option ℚ := none
  elbowDistance : Option ℚ := none
  simplifyFactor : Option ℚ := none
  mergePolygons : Option Bool := none
  concavePolygon : Option Bool := none
  maximumPolygons : Option NumVal := none
  notifyAfterEditExit : Option Bool := none
  leaveModeAfterCreate : Option Bool := none
  strokeWidth : Option ℚ := none
deriving DecidableEq, Repr

/-- The object-spread `{ ...base, ...o }`: every field present in `o`
overrides the one of `base`. -/
def spreadOptions (base : DrawLayerOptions) (o : PartialDrawLayerOptions) :
    DrawLayerOptions where
  mode := o.mode.getD base.mode
  smoothFactor := o.smoothFactor.getD base.smoothFactor
  elbowDistance := o.elbowDistance.getD base.elbowDistance
  simplifyFactor := o.simplifyFactor.getD base.simplifyFactor
  mergePolygons := o.mergePolygons.getD base.mergePolygons
  concavePolygon := o.concavePolygon.getD base.concavePolygon
  maximumPolygons := o.maximumPolygons.getD base.maximumPolygons
  notifyAfterEditExit := o.notifyAfterEditExit.getD base.notifyAfterEditExit
  leaveModeAfterCreate := o.leaveModeAfterCreate.getD base.leaveModeAfterCreate
  strokeWidth := o.strokeWidth.getD base.strokeWidth

/-- The `DrawLayer` constructor (`src/index.ts`):
`this.options = { ...defaultOptions, ...options }` — a plain spread with
no validation of any kind. -/
def constructorOptions (options : PartialDrawLayerOptions) : DrawLayerOptions :=
  spreadOptions defaultOptions options

/-- A polygon of the Polygon Store: one object identity (`Object.is` is
modelled by a numeric id) owning the region its outer ring encloses
(spec §3). -/
structure Poly : Type where
  id : Nat
  region : Region
deriving DecidableEq

/-- Events recorded while an operation runs, in the order the source
performs the corresponding steps: pairwise intersection tests and the
boolean union (geometry), polygon removal/insertion (store mutation), the
Simplifier and Concave Hull steps of the creation pipeline, and entry into
the Merge Engine. -/
inductive Ev : Type
  | testIntersect (i j : Nat)
  | unionOp
  | removePoly (i : Nat)
  | createPoly (i : Nat) (preventMerge : Bool)
  | simplifyStep
  | concaveStep
  | mergeEnter
deriving DecidableEq, Repr

/-- Geometry computation in the sense of spec §7: the intersection tests
and the boolean union performed by the Merge Engine. -/
def Ev.isGeometry : Ev → Bool
  | .testIntersect _ _ => true
  | .unionOp => true
  | _ => false

/-- Polygon Store mutation: removal or insertion of a polygon. -/
def Ev.isStoreMutation : Ev → Bool
  | .removePoly _ => true
  | .createPoly _ _ => true
  | _ => false

/-- Recognizer for the Merge Engine entry marker. -/
def Ev.isMergeEnter : Ev → Bool
  | .mergeEnter => true
  | _ => false

/-- A creation event must carry `preventMerge = true`; every other event
passes. -/
def Ev.preventFlagOk : Ev → Bool
  | .createPoly _ preventMerge => preventMerge
  | _ => true

/-- The per-surface Polygon Store (the `polygons` WeakMap entry of
`src/index.ts`) together with the fresh-identity counter that models
allocation of new polygon objects. -/
structure StoreState : Type where
  store : List Poly
  counter : Nat
deriving DecidableEq

/-- The test of `merge.js` lines 59–65: does `polygon` intersect any of
the *other* polygons currently on the map
(`polygons.filter(item => !Object.is(item, polygon)).some(...)`)? -/
def intersectsAny (polys : List Poly) (p : Poly) : Bool :=
  (polys.filter (fun q => q.id != p.id)).any
    (fun q => intersectsB p.region q.region)

/-- The accumulator of the reduce in `merge.js` lines 52–78:
`intersecting` and `rest` hold the rings of the polygons classified each
way (in the source in Clipper-point resp. lat/lng form — both model as the
region), `intersectingPolygons` the polygon objects classified
intersecting. -/
structure MergeAnalysis : Type where
  intersecting : List Region
  rest : List Region
  intersectingPolygons : List Poly
deriving DecidableEq

/-- One step of the reduce of `merge.js`: the polygon's ring is appended
to the partition chosen by `intersectsAny`, and intersecting polygons are
additionally collected for later removal. -/
def mergeStep (polys : List Poly) (accum : MergeAnalysis) (p : Poly) :
    MergeAnalysis :=
  if intersectsAny polys p then
    { accum with
      intersecting := accum.intersecting ++ [p.region]
      intersectingPolygons := accum.intersectingPolygons ++ [p] }
  else
    { accum with rest := accum.rest ++ [p.region] }

/-- The reduce of `merge.js` lines 52–78 over the full polygon list, from
the empty accumulator. -/
def mergeAnalysis (polys : List Poly) : MergeAnalysis :=
  polys.foldl (mergeStep polys) ⟨[], [], []⟩

/-- Modelled from the spec: `Clipper.SimplifyPolygons` under the non-zero
winding fill rule (`clipper-lib`, an external dependency) unions the input
rings; the model returns the combined union region.  The spec allows the
union to come back as several disjoint output rings; their pointwise union
equals the single region returned here, which is what every store-level
property below depends on.  Empty input yields no output ring. -/
def clipperUnion (rings : List Region) : List Region :=
  if rings.isEmpty then [] else [rings.foldl (· ∪ ·) ∅]

/-- Modelled from the spec: `removeFor` of `helpers/polygon.js` (absent
from the source tree) deletes one polygon identity from the store; an
absent identity is a no-op (spec §4.5). -/
def removeFor (ss : StoreState) (p : Poly) : StoreState :=
  { ss with store := ss.store.filter (fun q => q.id != p.id) }

/-- Modelled from the spec: the store-insertion step of `createFor` of
`helpers/polygon.js` (absent from the source tree) — a new Polygon with
fresh identity owning the given ring is added to the PolygonSet. -/
def addPolygon (ss : StoreState) (r : Region) : StoreState × Poly :=
  (⟨ss.store ++ [⟨ss.counter, r⟩], ss.counter + 1⟩, ⟨ss.counter, r⟩)

/-- Modelled from the spec: the Concave Hull re-derives a tighter boundary
around the same point cloud (spec §4.2); at region level it encloses the
same cell set, so the model is the identity on the region — its invocation
is recorded in the event trace, which is what the claims about it
concern. -/
def concaveM (r : Region) : Region := r

/-- Modelled from the spec: `createFor(map, latLngs, options, true)` as
invoked by the Merge Engine on each union output ring (`merge.js` line
97): the optional Concave Hull step is applied, the polygon is added with
a fresh identity, and — because `preventMerge` is `true` — the Merge
Engine is *not* re-entered. -/
def createForPrevented (ss : StoreState) (ring : Region)
    (options : DrawLayerOptions) : StoreState × Poly × List Ev :=
  let r := if options.concavePolygon then concaveM ring else ring
  let (ss1, p) := addPolygon ss r
  (ss1, p,
    (if options.concavePolygon then [Ev.concaveStep] else [])
      ++ [Ev.createPoly p.id true])

/-- The pairwise intersection tests performed by the reduce of `merge.js`
(first argument of `isIntersecting` is the polygon under classification).
`Array.prototype.some` may stop early; only the position of the geometry
events relative to the store events matters for the stated properties. -/
def testEvents (polys : List Poly) : List Ev :=
  (polys.map (fun p =>
    (polys.filter (fun q => q.id != p.id)).map
      (fun q => Ev.testIntersect p.id q.id))).flatten

/-- The Merge Engine, `merge.js` lines 49–99: classify every polygon of
`polys` (line 52–78), union the rings of the intersecting ones (81–84),
remove the intersecting polygons from the store (87), and create one new
polygon per union output ring with merging suppressed (89–98).  Returns
the new store state, the created polygons (the function's return value)
and the event trace. -/
def merge (ss : StoreState) (polys : List Poly)
    (options : DrawLayerOptions) : StoreState × List Poly × List Ev :=
  let analysis := mergeAnalysis polys
  let mergedRings := clipperUnion analysis.intersecting
  let ss1 := analysis.intersectingPolygons.foldl removeFor ss
  let created := mergedRings.foldl
    (fun acc r =>
      let (s', p, evs) := createForPrevented acc.1 r options
      (s', acc.2.1 ++ [p], acc.2.2 ++ evs))
    (ss1, ([] : List Poly), ([] : List Ev))
  (created.1, created.2.1,
    testEvents polys ++ [Ev.unionOp]
      ++ analysis.intersectingPolygons.map (fun p => Ev.removePoly p.id)
      ++ created.2.2)

/-- Modelled from the spec: the Simplifier of `helpers/simplify.js`
(absent from the source tree) reduces a raw point sequence to a polygon
ring; fewer than 3 points is degenerate and yields no polygon (the
`InsufficientPointsError` of spec §4.1, swallowed at the session
boundary).  The enclosed region of the resulting ring is abstracted as the
cell set of its points. -/
def simplifyM (latLngs : List Pt) : Option Region :=
  if latLngs.length < 3 then none else some latLngs.toFinset

/-- Modelled from the spec: `createFor` of `helpers/polygon.js` (absent
from the source tree) runs Simplifier → optional Concave Hull → adds the
candidate Polygon, and — when merging is enabled and not suppressed by the
`preventMerge` argument — invokes the Merge Engine (`merge.js` above) over
the surface's polygons (spec §2 data flow, §4.5). -/
def createFor (ss : StoreState) (latLngs : List Pt)
    (options : DrawLayerOptions) (preventMerge : Bool) :
    StoreState × List Poly × List Ev :=
  match simplifyM latLngs with
  | none => (ss, [], [Ev.simplifyStep])
  | some r0 =>
    let hullEvs := if options.concavePolygon then [Ev.concaveStep] else []
    let r := if options.concavePolygon then concaveM r0 else r0
    let (ss1, p) := addPolygon ss r
    if preventMerge || !options.mergePolygons then
      (ss1, [p], [Ev.simplifyStep] ++ hullEvs
        ++ [Ev.createPoly p.id preventMerge])
    else
      let (ss2, created, mergeEvs) := merge ss1 ss1.store options
      (ss2, created, [Ev.simplifyStep] ++ hullEvs
        ++ [Ev.createPoly p.id preventMerge, Ev.mergeEnter] ++ mergeEvs)

/-- The per-surface engine state of `src/index.ts`: the current mode
bitmask (`map[modesKey]`), the Polygon Store, and the in-progress drag
session — `some buf` when a mouse-down has installed the drag handlers and
the cancel closure (`map[cancelKey]`), with `buf` the accumulating
lat/lng buffer; `none` when the cancel closure is the no-op. -/
structure DrawState : Type where
  modes : Nat
  ss : StoreState
  session : Option (List Pt)
deriving DecidableEq

/-- `mouseDown` of `src/index.ts`: when the CREATE bit is not set in the
current mode the handler returns at once; otherwise the drag session
starts (empty point buffer, cancel closure installed). -/
def mouseDown (st : DrawState) : DrawState :=
  if st.modes &&& CREATE = 0 then st
  else { st with session := some [] }

/-- `mouseMove` of `src/index.ts`: each sample is appended to the
in-progress drag buffer; no store mutation. -/
def mouseMove (st : DrawState) (pt : Pt) : DrawState :=
  match st.session with
  | none => st
  | some buf => { st with session := some (buf ++ [pt]) }

/-- `mouseUp` of `src/index.ts`: the cancel closure is reset to the no-op
and the listeners removed (session ends); when called with
`create = true` and a non-empty buffer, `createFor` runs and the CREATE
bit is toggled off if `leaveModeAfterCreate` is set; with `create = false`
(the cancel path) nothing else happens. -/
def mouseUp (st : DrawState) (options : DrawLayerOptions)
    (create : Bool) : DrawState :=
  match st.session with
  | none => st
  | some linePoints =>
    let st1 := { st with session := none }
    if create then
      let st2 :=
        if linePoints.length != 0 then
          { st1 with ss := (createFor st1.ss linePoints options false).1 }
        else st1
      if options.leaveModeAfterCreate then
        { st2 with modes := st2.modes ^^^ CREATE }
      else st2
    else st1

/-- `cancel` of `src/index.ts`: invoke `map[cancelKey]`, which is
`() => mouseUp({}, false)` while a drag is in progress and the no-op
otherwise. -/
def cancel (st : DrawState) (options : DrawLayerOptions) : DrawState :=
  mouseUp st options false

/-- The default value of the `options` parameter of the public
`DrawLayer.create` method: `{ concavePolygon: false }`. -/
def createDefaultParam : PartialDrawLayerOptions where
  concavePolygon := some false

/-- The public `DrawLayer.create` method (`src/index.ts` lines 173–186):
spread the per-call options (defaulting to `{ concavePolygon: false }`)
over the instance options and run `createFor` — with no check of the
current mode.  `updateFor(map, 'create')` only notifies collaborators and
does not touch the store. -/
def DrawLayer.create (instanceOptions : DrawLayerOptions) (st : DrawState)
    (latLngs : List Pt) (options : Option PartialDrawLayerOptions) :
    DrawState × List Poly × List Ev :=
  let o := spreadOptions instanceOptions (options.getD createDefaultParam)
  let (ss', created, evs) := createFor st.ss latLngs o false
  ({ st with ss := ss' }, created, evs)

/-! ## Store well-formedness, the claimed invariant, concrete data -/

/-- Well-formedness of a store state: distinct polygons have distinct
identities, and every identity was allocated below the counter (fresh
identities really are fresh). -/
def WFStore (ss : StoreState) : Prop :=
  (ss.store.map Poly.id).Nodup ∧ ∀ p ∈ ss.store, p.id < ss.counter

instance (ss : StoreState) : Decidable (WFStore ss) := by
  unfold WFStore; infer_instance

/-- The PolygonSet invariant of spec §3: no two members (distinct
identities) report as intersecting. -/
def pairwiseOk (ss : StoreState) : Prop :=
  ∀ p ∈ ss.store, ∀ q ∈ ss.store, p.id ≠ q.id →
    intersectsB p.region q.region = false

instance (ss : StoreState) : Decidable (pairwiseOk ss) := by
  unfold pairwiseOk; infer_instance

/-- A polygon overlapping `pB` but not `pC`. -/
def pA : Poly := ⟨0, {(0, 0), (1, 0)}⟩

/-- A polygon overlapping `pA` but not `pC`. -/
def pB : Poly := ⟨1, {(1, 0), (2, 0)}⟩

/-- A polygon overlapping neither `pA` nor `pB`; in the counterexample
scenario it plays the candidate (the most recently added polygon). -/
def pC : Poly := ⟨2, {(9, 9)}⟩

/-- A consistent one-polygon store used as a concrete prior state. -/
def wPrior : StoreState := ⟨[⟨0, {(0, 0)}⟩], 1⟩

/-- A concrete store holding one isolated polygon (id 0) and two mutually
intersecting polygons (ids 1 and 2). -/
def wStore : StoreState := ⟨[⟨0, {(0, 0)}⟩, ⟨1, {(5, 5)}⟩, ⟨2, {(5, 5)}⟩], 3⟩

/-! ## Helper lemmas -/

theorem intersectsB_eq_true_iff (a b : Region) :
    intersectsB a b = true ↔ (a ∩ b).Nonempty := by
  simp [intersectsB]

theorem intersectsB_eq_false_iff (a b : Region) :
    intersectsB a b = false ↔ a ∩ b = ∅ := by
  simp [intersectsB, Finset.not_nonempty_iff_eq_empty]

theorem intersectsB_comm (a b : Region) : intersectsB a b = intersectsB b a := by
  simp [intersectsB, Finset.inter_comm]

theorem foldl_mergeStep (polys : List Poly) :
    ∀ (l : List Poly) (a : MergeAnalysis),
      l.foldl (mergeStep polys) a
        = ⟨a.intersecting ++ (l.filter (intersectsAny polys)).map Poly.region,
           a.rest ++ (l.filter (fun p => !intersectsAny polys p)).map Poly.region,
           a.intersectingPolygons ++ l.filter (intersectsAny polys)⟩ := by
  intro l
  induction l with
  | nil => intro a; simp
  | cons p l ih =>
    intro a
    by_cases h : intersectsAny polys p
    · simp [mergeStep, h, ih, List.filter_cons]
    · simp [mergeStep, h, ih, List.filter_cons]

theorem mergeAnalysis_eq (polys : List Poly) :
    mergeAnalysis polys
      = ⟨(polys.filter (intersectsAny polys)).map Poly.region,
         (polys.filter (fun p => !intersectsAny polys p)).map Poly.region,
         polys.filter (intersectsAny polys)⟩ := by
  simp [mergeAnalysis, foldl_mergeStep]

theorem foldl_removeFor (l : List Poly) (ss : StoreState) :
    (l.foldl removeFor ss)
      = ⟨ss.store.filter (fun q => l.all (fun p => q.id != p.id)), ss.counter⟩ := by
  induction l generalizing ss with
  | nil => simp [List.filter_true]
  | cons p l ih =>
    simp only [List.foldl_cons, ih, removeFor, List.filter_filter]
    congr 1
    apply List.filter_congr
    intro q _
    simp [Bool.and_comm]

/-- When no polygon of the list intersects another, the Merge Engine
leaves the store untouched and creates nothing: the union input is empty,
so is its output, and nothing is removed. -/
theorem merge_of_empty (ss : StoreState) (o : DrawLayerOptions)
    (polys : List Poly) (h : polys.filter (intersectsAny polys) = []) :
    merge ss polys o = (ss, [], testEvents polys ++ [Ev.unionOp]) := by
  simp [merge, mergeAnalysis_eq, h, clipperUnion, List.filter_true]

/-- When some polygons intersect, the Merge Engine removes exactly those,
appends one fresh polygon carrying the union of their regions, and emits
the trace in source order: tests, union, removals, suppressed-merge
creation. -/
theorem merge_of_ne (ss : StoreState) (o : DrawLayerOptions)
    (polys : List Poly) (h : polys.filter (intersectsAny polys) ≠ []) :
    merge ss polys o =
      (⟨ss.store.filter
          (fun q => (polys.filter (intersectsAny polys)).all (fun p => q.id != p.id))
          ++ [⟨ss.counter, ((polys.filter (intersectsAny polys)).map Poly.region).foldl (· ∪ ·) ∅⟩],
        ss.counter + 1⟩,
       [⟨ss.counter, ((polys.filter (intersectsAny polys)).map Poly.region).foldl (· ∪ ·) ∅⟩],
       testEvents polys ++ [Ev.unionOp]
         ++ (polys.filter (intersectsAny polys)).map (fun p => Ev.removePoly p.id)
         ++ ((if o.concavePolygon then [Ev.concaveStep] else [])
             ++ [Ev.createPoly ss.counter true])) := by
  have h2 : ((polys.filter (intersectsAny polys)).map Poly.region).isEmpty = false := by
    simp [List.isEmpty_iff, h]
  simp [merge, mergeAnalysis_eq, clipperUnion, h2, foldl_removeFor,
    createForPrevented, addPolygon, concaveM]

theorem testEvents_mem (polys : List Poly) (e : Ev) (he : e ∈ testEvents polys) :
    ∃ i j, e = Ev.testIntersect i j := by
  simp only [testEvents, List.mem_flatten, List.mem_map] at he
  obtain ⟨l, ⟨p, _, rfl⟩, hl⟩ := he
  simp only [List.mem_map] at hl
  obtain ⟨q, _, rfl⟩ := hl
  exact ⟨p.id, q.id, rfl⟩

/-- Every event of a Merge Engine trace satisfies the single-pass
discipline: creation events carry `preventMerge = true`, the Merge Engine
is never re-entered, and a Concave Hull step can only appear when the
`concavePolygon` option is on. -/
theorem merge_trace_mem (ss : StoreState) (polys : List Poly)
    (o : DrawLayerOptions) (e : Ev) (he : e ∈ (merge ss polys o).2.2) :
    Ev.preventFlagOk e = true ∧ Ev.isMergeEnter e = false
      ∧ (e = Ev.concaveStep → o.concavePolygon = true) := by
  by_cases h : polys.filter (intersectsAny polys) = []
  · rw [merge_of_empty ss o polys h] at he
    rcases List.mem_append.mp he with h1 | h1
    · obtain ⟨i, j, rfl⟩ := testEvents_mem polys e h1
      exact ⟨rfl, rfl, by intro hx; cases hx⟩
    · simp only [List.mem_singleton] at h1
      subst h1; exact ⟨rfl, rfl, by intro hx; cases hx⟩
  · rw [merge_of_ne ss o polys h] at he
    simp only [List.append_assoc, List.mem_append] at he
    rcases he with h1 | h1 | h1 | h1 | h1
    · obtain ⟨i, j, rfl⟩ := testEvents_mem polys e h1
      exact ⟨rfl, rfl, by intro hx; cases hx⟩
    · simp only [List.mem_singleton] at h1
      subst h1; exact ⟨rfl, rfl, by intro hx; cases hx⟩
    · obtain ⟨p, _, rfl⟩ := List.mem_map.mp h1
      exact ⟨rfl, rfl, by intro hx; cases hx⟩
    · by_cases hc : o.concavePolygon <;> simp [hc] at h1
      subst h1; exact ⟨rfl, rfl, fun _ => hc⟩
    · simp only [List.mem_singleton] at h1
      subst h1; exact ⟨rfl, rfl, by intro hx; cases hx⟩

theorem merge_countP_mergeEnter (ss : StoreState) (polys : List Poly)
    (o : DrawLayerOptions) :
    (merge ss polys o).2.2.countP Ev.isMergeEnter = 0 := by
  rw [List.countP_eq_zero]
  intro e he
  simp [(merge_trace_mem ss polys o e he).2.1]

/-- A create with `concavePolygon` off emits no Concave Hull step,
whether or not the Merge Engine runs. -/
theorem createFor_no_concaveStep (ss : StoreState) (latLngs : List Pt)
    (o : DrawLayerOptions) (hc : o.concavePolygon = false) :
    Ev.concaveStep ∉ (createFor ss latLngs o false).2.2 := by
  cases hs : simplifyM latLngs with
  | none => simp [createFor, hs]
  | some r0 =>
    by_cases hmg : o.mergePolygons
    · intro hmem
      simp [createFor, hs, addPolygon, hmg, hc] at hmem
      exact absurd ((merge_trace_mem _ _ o _ hmem).2.2 rfl) (by simp [hc])
    · simp [createFor, hs, addPolygon, hmg, hc]

theorem intersectsAny_eq_false_elim (polys : List Poly) (p : Poly)
    (h : intersectsAny polys p = false) (q : Poly) (hq : q ∈ polys)
    (hne : q.id ≠ p.id) : intersectsB p.region q.region = false := by
  rw [intersectsAny] at h
  have h2 := List.any_eq_false.mp h q (List.mem_filter.mpr ⟨hq, by simpa using hne⟩)
  simpa using h2

theorem inter_foldl_union (a : Region) (rs : List Region) (acc : Region)
    (ha : a ∩ acc = ∅) (h : ∀ r ∈ rs, a ∩ r = ∅) :
    a ∩ rs.foldl (· ∪ ·) acc = ∅ := by
  induction rs generalizing acc with
  | nil => simpa using ha
  | cons r rs ih =>
    refine ih _ ?_ (fun r' hr' => h r' (List.mem_cons_of_mem _ hr'))
    rw [Finset.inter_union_distrib_left, ha, h r (List.mem_cons_self _ _)]
    simp

/-- The repair property of the Merge Engine: whatever the input store, one
merge pass over it leaves no two members (distinct identities) reporting
as intersecting — the polygons that intersected something were all removed
and replaced by their combined union, which cannot overlap any kept
polygon. -/
theorem merge_pairwiseOk (ss : StoreState) (o : DrawLayerOptions) :
    pairwiseOk (merge ss ss.store o).1 := by
  by_cases h : ss.store.filter (intersectsAny ss.store) = []
  · rw [merge_of_empty ss o ss.store h]
    intro p hp q hq hne
    have hfa : intersectsAny ss.store p = false := by
      simpa using List.filter_eq_nil_iff.mp h p hp
    exact intersectsAny_eq_false_elim ss.store p hfa q hq (Ne.symm hne)
  · rw [merge_of_ne ss o ss.store h]
    intro p hp q hq hne
    have keptElim : ∀ x : Poly,
        x ∈ ss.store.filter
          (fun y => (ss.store.filter (intersectsAny ss.store)).all
            (fun m => y.id != m.id)) →
        x ∈ ss.store ∧ intersectsAny ss.store x = false ∧
          ∀ m ∈ ss.store.filter (intersectsAny ss.store), x.id ≠ m.id := by
      intro x hx
      have hx' := List.mem_filter.mp hx
      have hall := List.all_eq_true.mp hx'.2
      refine ⟨hx'.1, ?_, fun m hm => by simpa using hall m hm⟩
      cases hxx : intersectsAny ss.store x with
      | false => rfl
      | true =>
        have hmem : x ∈ ss.store.filter (intersectsAny ss.store) :=
          List.mem_filter.mpr ⟨hx'.1, hxx⟩
        have := hall x hmem
        simp at this
    have keptDisjU : ∀ x : Poly,
        x ∈ ss.store.filter
          (fun y => (ss.store.filter (intersectsAny ss.store)).all
            (fun m => y.id != m.id)) →
        x.region ∩ ((ss.store.filter (intersectsAny ss.store)).map
          Poly.region).foldl (· ∪ ·) ∅ = ∅ := by
      intro x hx
      obtain ⟨hx1, hx2, hx3⟩ := keptElim x hx
      refine inter_foldl_union _ _ _ (Finset.inter_empty _) ?_
      intro r hr
      obtain ⟨m, hm, rfl⟩ := List.mem_map.mp hr
      have hmne : m.id ≠ x.id := Ne.symm (hx3 m hm)
      have hmst : m ∈ ss.store := (List.mem_filter.mp hm).1
      exact (intersectsB_eq_false_iff _ _).mp
        (intersectsAny_eq_false_elim ss.store x hx2 m hmst hmne)
    rcases List.mem_append.mp hp with hpk | hpn
    · rcases List.mem_append.mp hq with hqk | hqn
      · obtain ⟨hp1, hp2, _⟩ := keptElim p hpk
        exact intersectsAny_eq_false_elim ss.store p hp2 q
          (keptElim q hqk).1 (Ne.symm hne)
      · have hq' : q = ⟨ss.counter,
            ((ss.store.filter (intersectsAny ss.store)).map
              Poly.region).foldl (· ∪ ·) ∅⟩ := by simpa using hqn
        subst hq'
        exact (intersectsB_eq_false_iff _ _).mpr (keptDisjU p hpk)
    · have hp' : p = ⟨ss.counter,
          ((ss.store.filter (intersectsAny ss.store)).map
            Poly.region).foldl (· ∪ ·) ∅⟩ := by simpa using hpn
      subst hp'
      rcases List.mem_append.mp hq with hqk | hqn
      · rw [intersectsB_comm]
        exact (intersectsB_eq_false_iff _ _).mpr (keptDisjU q hqk)
      · have hq' : q = ⟨ss.counter,
            ((ss.store.filter (intersectsAny ss.store)).map
              Poly.region).foldl (· ∪ ·) ∅⟩ := by simpa using hqn
        subst hq'
        exact absurd rfl hne

/-- A polygon of a well-identified store that intersects nothing passes
the removal filter of the Merge Engine: its identity differs from every
removed one. -/
theorem mem_kept (ss : StoreState) (hnd : (ss.store.map Poly.id).Nodup)
    (p : Poly) (hp : p ∈ ss.store) (hrest : intersectsAny ss.store p = false) :
    ((ss.store.filter (intersectsAny ss.store)).all (fun m => p.id != m.id)) = true := by
  rw [List.all_eq_true]
  intro m hm
  obtain ⟨hm1, hm2⟩ := List.mem_filter.mp hm
  simp only [bne_iff_ne, ne_eq]
  intro heq
  have : p = m := List.inj_on_of_nodup_map hnd hp hm1 heq
  subst this
  rw [hrest] at hm2
  cases hm2

/-! ## The claims -/

/-- C7: for every pair of rings, the intersection test is symmetric:
`intersects(A,B) = intersects(B,A)`. -/
theorem intersects_symm : ∀ a b : Region, intersectsB a b = intersectsB b a :=
  intersectsB_comm

/-- C1: with `mergePolygons` enabled, a create call never leaves the
Polygon Store containing two members that the intersection test reports as
intersecting: starting from any store satisfying the PolygonSet invariant,
the store after `createFor` satisfies it again (a degenerate input leaves
the store untouched; a successful candidate triggers a merge pass, which
re-establishes the invariant from *any* prior store by `merge_pairwiseOk`). -/
theorem create_no_intersecting_members (ss : StoreState) (latLngs : List Pt)
    (o : DrawLayerOptions) (hprior : pairwiseOk ss)
    (hm : o.mergePolygons = true) :
    pairwiseOk (createFor ss latLngs o false).1 := by
  cases hs : simplifyM latLngs with
  | none => simpa [createFor, hs] using hprior
  | some r0 =>
    simp only [createFor, hs, addPolygon, hm, Bool.not_true, Bool.or_false]
    exact merge_pairwiseOk _ o

/-- C1 witness: a concrete create against a consistent one-polygon store
— the candidate overlaps the stored polygon and the merge leaves a
consistent store. -/
theorem create_no_intersecting_members_witness :
    pairwiseOk wPrior ∧ defaultOptions.mergePolygons = true ∧
    pairwiseOk (createFor wPrior [(0, 0), (1, 0), (0, 1)] defaultOptions false).1 :=
  ⟨by decide, by decide,
    create_no_intersecting_members wPrior [(0, 0), (1, 0), (0, 1)]
      defaultOptions (by decide) (by decide)⟩

/-- C2 counterexample: in `merge([pA, pB, pC])` with candidate `pC` (the
most recently added polygon), the polygons `pA` and `pB` land in the
`intersecting` partition even though neither overlaps the candidate — so
membership in the intersecting partition is *not* determined solely by
overlap with the candidate, refuting the claim at this concrete input. -/
theorem merge_partition_not_candidate_based :
    (mergeAnalysis [pA, pB, pC]).intersectingPolygons = [pA, pB]
    ∧ intersectsB pA.region pC.region = false
    ∧ intersectsB pB.region pC.region = false := by
  decide

/-- C2 (amended): in the merge operation's first step every member of the
polygon list (candidate included) is tested against every *other* member,
and it is classified `intersecting` iff it overlaps at least one other
member of the list — not solely by overlap with the candidate. -/
theorem mergeAnalysis_partition (polys : List Poly) (p : Poly) (hp : p ∈ polys) :
    p ∈ (mergeAnalysis polys).intersectingPolygons ↔
      ∃ q ∈ polys, q.id ≠ p.id ∧ intersectsB p.region q.region = true := by
  rw [mergeAnalysis_eq]
  simp only [List.mem_filter, hp, true_and, intersectsAny, List.any_eq_true,
    bne_iff_ne, ne_eq]
  constructor
  · rintro ⟨q, ⟨hq1, hq2⟩, hq3⟩
    exact ⟨q, hq1, hq2, hq3⟩
  · rintro ⟨q, hq1, hq2, hq3⟩
    exact ⟨q, ⟨hq1, hq2⟩, hq3⟩

/-- C2 witness: the amended classification rule evaluated at `pA` in the
concrete three-polygon scenario. -/
theorem mergeAnalysis_partition_witness :
    pA ∈ (mergeAnalysis [pA, pB, pC]).intersectingPolygons ↔
      ∃ q ∈ [pA, pB, pC], q.id ≠ pA.id ∧ intersectsB pA.region q.region = true :=
  mergeAnalysis_partition [pA, pB, pC] pA (by decide)

/-- C3: the Merge Engine performs exactly one merge pass — every creation
event it emits carries `preventMerge = true`, its trace never re-enters
the Merge Engine, a suppressed create never enters it either, and a full
create enters it at most once; since every operation of the embedding is a
total function, merge terminates on every input polygon list. -/
theorem merge_single_pass (ss : StoreState) (polys : List Poly)
    (o : DrawLayerOptions) (latLngs : List Pt) :
    (merge ss polys o).2.2.all Ev.preventFlagOk = true
    ∧ (merge ss polys o).2.2.countP Ev.isMergeEnter = 0
    ∧ (createFor ss latLngs o true).2.2.countP Ev.isMergeEnter = 0
    ∧ (createFor ss latLngs o false).2.2.countP Ev.isMergeEnter ≤ 1 := by
  refine ⟨?_, merge_countP_mergeEnter ss polys o, ?_, ?_⟩
  · rw [List.all_eq_true]
    intro e he
    exact (merge_trace_mem ss polys o e he).1
  · cases hs : simplifyM latLngs with
    | none => simp [createFor, hs, Ev.isMergeEnter]
    | some r0 =>
      simp [createFor, hs, addPolygon, Ev.isMergeEnter]
  · cases hs : simplifyM latLngs with
    | none => simp [createFor, hs, Ev.isMergeEnter]
    | some r0 =>
      by_cases hmg : o.mergePolygons
      · simp [createFor, hs, addPolygon, hmg, Ev.isMergeEnter,
          List.countP_append, merge_countP_mergeEnter]
      · simp [createFor, hs, addPolygon, hmg, Ev.isMergeEnter]
        split <;> simp [Ev.isMergeEnter]

/-- C4 counterexample: constructing the engine with
`maximumPolygons = -1` and negative `simplifyFactor`, `elbowDistance` and
`smoothFactor` does *not* fail with `InvalidConfigurationError` — the
constructor completes normally and stores all four out-of-range values
unchanged. -/
theorem constructor_accepts_negative_config :
    constructorOptions
      { maximumPolygons := some (NumVal.fin (-1))
        simplifyFactor := some (-1)
        elbowDistance := some (-1)
        smoothFactor := some (-1) } =
    { defaultOptions with
        maximumPolygons := NumVal.fin (-1)
        simplifyFactor := -1
        elbowDistance := -1
        smoothFactor := -1 } := by
  decide

/-- C4 (amended): the constructor performs no validation of option
ranges: it spreads the caller's options over the defaults, so negative
`maximumPolygons`, `simplifyFactor`, `elbowDistance` and `smoothFactor`
are accepted and stored exactly as given — no `InvalidConfigurationError`
is raised and no clamping occurs. -/
theorem constructor_no_validation :
    ∀ (m : NumVal) (s e f : ℚ),
      (constructorOptions
        { maximumPolygons := some m
          simplifyFactor := some s
          elbowDistance := some e
          smoothFactor := some f }).maximumPolygons = m ∧
      (constructorOptions
        { maximumPolygons := some m
          simplifyFactor := some s
          elbowDistance := some e
          smoothFactor := some f }).simplifyFactor = s ∧
      (constructorOptions
        { maximumPolygons := some m
          simplifyFactor := some s
          elbowDistance := some e
          smoothFactor := some f }).elbowDistance = e ∧
      (constructorOptions
        { maximumPolygons := some m
          simplifyFactor := some s
          elbowDistance := some e
          smoothFactor := some f }).smoothFactor = f := by
  intro m s e f
  exact ⟨rfl, rfl, rfl, rfl⟩

/-- C5 counterexample: with the mode set to `NONE` (the CREATE bit is not
set), the public `DrawLayer.create` method still runs the pipeline and
adds a polygon to the store — refuting the claim that every path adding a
polygon from a raw point sequence is gated by the CREATE bit. -/
theorem create_ignores_mode_bit :
    NONE &&& CREATE = 0
    ∧ (DrawLayer.create defaultOptions ⟨NONE, ⟨[], 0⟩, none⟩
        [(0, 0), (1, 0), (0, 1)] none).1.ss.store.length = 1 := by
  decide

/-- C5 (amended): the CREATE bit gates only the interactive mouse-down
drawing path — with the bit unset, `mouseDown` performs no step and no
mutation — while the public `DrawLayer.create` method runs the pipeline
and mutates the store identically whatever the current mode value is. -/
theorem mode_gates_only_mouse_path :
    ∀ (st : DrawState) (instanceOptions : DrawLayerOptions)
      (latLngs : List Pt) (options : Option PartialDrawLayerOptions) (m : Nat),
      (st.modes &&& CREATE = 0 → mouseDown st = st) ∧
      (DrawLayer.create instanceOptions { st with modes := m } latLngs options).1.ss
        = (DrawLayer.create instanceOptions st latLngs options).1.ss := by
  intro st instanceOptions latLngs options m
  exact ⟨fun h => by simp [mouseDown, h], rfl⟩

/-- C5 witness: `mouseDown` on a surface in mode `NONE` is the
identity. -/
theorem mode_gates_only_mouse_path_witness :
    mouseDown ⟨NONE, ⟨[], 0⟩, none⟩ = ⟨NONE, ⟨[], 0⟩, none⟩ :=
  (mode_gates_only_mouse_path ⟨NONE, ⟨[], 0⟩, none⟩ defaultOptions [] none 0).1
    (by decide)

/-- C6: during a merge, all geometry computation (the pairwise
intersection tests and the boolean union) completes before any polygon is
removed from or added to the store: the trace splits into a prefix free of
store mutations containing the geometry events followed by a suffix free
of geometry events; the store-mutation steps of the embedding are total,
so no error separates the old consistent store state from the new one. -/
theorem merge_geometry_before_mutation (ss : StoreState) (polys : List Poly)
    (o : DrawLayerOptions) :
    ∃ g s, (merge ss polys o).2.2 = g ++ s
      ∧ (∀ e ∈ g, e.isGeometry = true ∧ e.isStoreMutation = false)
      ∧ (∀ e ∈ s, e.isGeometry = false) := by
  by_cases h : polys.filter (intersectsAny polys) = []
  · refine ⟨testEvents polys ++ [Ev.unionOp], [],
      by simp [merge_of_empty ss o polys h], ?_, by simp⟩
    intro e he
    rcases List.mem_append.mp he with h1 | h1
    · obtain ⟨i, j, rfl⟩ := testEvents_mem polys e h1
      exact ⟨rfl, rfl⟩
    · simp only [List.mem_singleton] at h1
      subst h1; exact ⟨rfl, rfl⟩
  · refine ⟨testEvents polys ++ [Ev.unionOp],
      (polys.filter (intersectsAny polys)).map (fun p => Ev.removePoly p.id)
        ++ ((if o.concavePolygon then [Ev.concaveStep] else [])
            ++ [Ev.createPoly ss.counter true]), ?_, ?_, ?_⟩
    · simp [merge_of_ne ss o polys h]
    · intro e he
      rcases List.mem_append.mp he with h1 | h1
      · obtain ⟨i, j, rfl⟩ := testEvents_mem polys e h1
        exact ⟨rfl, rfl⟩
      · simp only [List.mem_singleton] at h1
        subst h1; exact ⟨rfl, rfl⟩
    · intro e he
      rcases List.mem_append.mp he with h1 | h1
      · obtain ⟨p, _, rfl⟩ := List.mem_map.mp h1
        rfl
      · rcases List.mem_append.mp h1 with h2 | h2
        · by_cases hc : o.concavePolygon <;> simp [hc] at h2
          subst h2; rfl
        · simp only [List.mem_singleton] at h2
          subst h2; rfl

/-- C8: `cancel` aborts any in-progress drag without mutating the Polygon
Store — the whole `StoreState` (and the mode) before and after `cancel`
is identical — and `cancel` is idempotent: two invocations in a row leave
the engine state exactly as one does. -/
theorem cancel_no_store_mutation_idempotent :
    ∀ (st : DrawState) (options : DrawLayerOptions),
      (cancel st options).ss = st.ss ∧
      (cancel st options).modes = st.modes ∧
      cancel (cancel st options) options = cancel st options := by
  intro st options
  cases h : st.session <;>
    simp [cancel, mouseUp, h]

/-- C9: the public `DrawLayer.create` method called without an explicit
options argument runs the pipeline with `concavePolygon` forced to
`false` — overriding the instance-level option even when it is `true` —
and consequently the Concave Hull step never appears in the trace of such
a create. -/
theorem create_default_concave_off :
    ∀ (instanceOptions : DrawLayerOptions) (st : DrawState)
      (latLngs : List Pt),
      (spreadOptions instanceOptions
        ((none : Option PartialDrawLayerOptions).getD createDefaultParam)
        ).concavePolygon = false ∧
      Ev.concaveStep ∉
        (DrawLayer.create instanceOptions st latLngs none).2.2 := by
  intro instanceOptions st latLngs
  exact ⟨rfl, createFor_no_concaveStep st.ss latLngs _ rfl⟩

/-- C10: every polygon the merge operation classifies as non-intersecting
is left untouched — it stays in the store and does not appear in the
operation's return value — and only polygons that intersect some other
polygon are ever removed from the store. -/
theorem merge_rest_untouched (ss : StoreState) (o : DrawLayerOptions) (p : Poly)
    (hwf : WFStore ss) (hp : p ∈ ss.store)
    (hrest : intersectsAny ss.store p = false) :
    p ∈ (merge ss ss.store o).1.store
    ∧ p ∉ (merge ss ss.store o).2.1
    ∧ ∀ q ∈ ss.store, q ∉ (merge ss ss.store o).1.store →
        intersectsAny ss.store q = true := by
  by_cases h : ss.store.filter (intersectsAny ss.store) = []
  · rw [merge_of_empty ss o ss.store h]
    exact ⟨hp, by simp, fun q hq hnq => absurd hq hnq⟩
  · rw [merge_of_ne ss o ss.store h]
    refine ⟨?_, ?_, ?_⟩
    · exact List.mem_append_left _
        (List.mem_filter.mpr ⟨hp, mem_kept ss hwf.1 p hp hrest⟩)
    · intro hmem
      have hpid : p.id < ss.counter := hwf.2 p hp
      simp only [List.mem_singleton] at hmem
      rw [hmem] at hpid
      simp at hpid
    · intro q hq hnq
      cases hqi : intersectsAny ss.store q with
      | true => rfl
      | false =>
        exact absurd (List.mem_append_left _
          (List.mem_filter.mpr ⟨hq, mem_kept ss hwf.1 q hq hqi⟩)) hnq

/-- C10 witness: in the concrete store `wStore`, the isolated polygon
(id 0) survives the merge of the two mutually intersecting polygons
(ids 1 and 2), is absent from the return value, and every removed polygon
was intersecting. -/
theorem merge_rest_untouched_witness :
    (⟨0, {(0, 0)}⟩ : Poly) ∈ (merge wStore wStore.store defaultOptions).1.store
    ∧ (⟨0, {(0, 0)}⟩ : Poly) ∉ (merge wStore wStore.store defaultOptions).2.1
    ∧ ∀ q ∈ wStore.store, q ∉ (merge wStore wStore.store defaultOptions).1.store →
        intersectsAny wStore.store q = true :=
  merge_rest_untouched wStore defaultOptions ⟨0, {(0, 0)}⟩
    (by decide) (by decide) (by decide)

end LeafletDrawShapes
